import Mathlib

/-!
Verification of the influx binding engine (influx.go).

The file shallowly embeds the Go source: wire values (`interface{}` values
delivered by the influx client) become `GoVal`, destination values reachable
through `reflect` become `DVal`, and each Go function is translated to a Lean
function of the same name.  Go's in-place mutation of destinations is made
explicit: every decode function returns the updated destination.  Run-time
panics (out-of-range indexing, failed type assertions) are a distinguished
outcome, as is running out of recursion fuel (the Go code can genuinely
diverge on a non-nil nested pointer destination, so the mutual recursion is
bounded by fuel).

Strings are ASCII in all the identifiers this code manipulates; the models of
`unicode.IsUpper`, `unicode.ToLower`, `unicode.ToUpper` and of
`strings.Title`'s separator classification cover the ASCII fragment of the
unicode tables.
-/

namespace Influx

/-- A wire value: the dynamic types that reach the binder as `interface{}`.
`float` models Go `float64` as an exact rational (binary rounding is not
modelled); `time` models a `time.Time` by its total number of nanoseconds
since the Unix epoch (unbounded, so `UnixNano` overflow is not modelled). -/
inductive GoVal where
  | int (n : Int)
  | uint (n : Nat)
  | float (q : ℚ)
  | str (s : String)
  | time (nanos : Int)
deriving DecidableEq, Repr

/-- ASCII fragment of `unicode.IsUpper`. -/
def goIsUpper (c : Char) : Bool := 'A' ≤ c && c ≤ 'Z'

/-- ASCII fragment of `unicode.IsLower`. -/
def goIsLower (c : Char) : Bool := 'a' ≤ c && c ≤ 'z'

/-- ASCII fragment of `unicode.ToLower`. -/
def goToLower (c : Char) : Char :=
  if goIsUpper c then Char.ofNat (c.toNat + 32) else c

/-- ASCII fragment of `unicode.ToUpper` (equal to `unicode.ToTitle` on ASCII). -/
def goToUpper (c : Char) : Char :=
  if goIsLower c then Char.ofNat (c.toNat - 32) else c

/-- ASCII fragment of `strings.isSeparator`: ASCII alphanumerics and the
underscore are not separators, every other ASCII character is. -/
def goIsSeparator (c : Char) : Bool :=
  !(c.isDigit || goIsLower c || goIsUpper c || c == '_')

/-- `strings.Split` with a one-character separator (the source splits only on
`","`, `"_"` and, for type names, `"."`). `strings.Split("", sep) = [""]`. -/
def goSplit (sep : Char) : List Char → List (List Char)
  | [] => [[]]
  | c :: cs =>
    if c == sep then [] :: goSplit sep cs
    else
      match goSplit sep cs with
      | [] => [[c]]
      | t :: ts => (c :: t) :: ts

/-- `strings.Split` on `String`s. -/
def goSplitStr (sep : Char) (s : String) : List String :=
  (goSplit sep s.data).map String.mk

/-- Core loop of `strings.Title`: the flag says whether the previous rune was a
separator (initially `true`, since `Title` starts from `prev = ' '`); a rune
following a separator is mapped through `unicode.ToTitle`. -/
def goTitleAux : Bool → List Char → List Char
  | _, [] => []
  | prevSep, c :: cs =>
    (if prevSep then goToUpper c else c) :: goTitleAux (goIsSeparator c) cs

/-- `strings.Title` on a rune list. -/
def goTitle (s : List Char) : List Char := goTitleAux true s

/-- `strings.HasSuffix`. -/
def goHasSuffix (s sfx : String) : Bool := sfx.data.isSuffixOf s.data

/-- Loop of `titleToSnake`: walking the runes with the `lastIsUpper` state
(initially `true`); an upper-case rune after a non-upper rune gets an
underscore inserted in front, and every upper-case rune is lower-cased. -/
def titleToSnakeAux : Bool → List Char → List Char
  | _, [] => []
  | lastIsUpper, c :: cs =>
    if goIsUpper c then
      if !lastIsUpper then '_' :: goToLower c :: titleToSnakeAux true cs
      else goToLower c :: titleToSnakeAux true cs
    else c :: titleToSnakeAux false cs

/-- `titleToSnake`: `MeasurementName --> measurement_name`. -/
def titleToSnake (s : String) : String := String.mk (titleToSnakeAux true s.data)

/-- `snakeToTitle`: split on `"_"`, `strings.Title` each segment, join with
the empty separator. -/
def snakeToTitle (s : String) : String :=
  String.mk (((goSplit '_' s.data).map goTitle).flatten)

/-- Decimal digit value. -/
def digitVal (c : Char) : Option Nat :=
  if c.isDigit then some (c.toNat - 48) else none

/-- Accumulate a run of decimal digits; fails on any non-digit. -/
def digitsToNatAux : Nat → List Char → Option Nat
  | acc, [] => some acc
  | acc, c :: cs =>
    match digitVal c with
    | some d => digitsToNatAux (acc * 10 + d) cs
    | none => none

/-- All-digit, non-empty rune list to its decimal value. -/
def digitsToNat : List Char → Option Nat
  | [] => none
  | cs => digitsToNatAux 0 cs

/-- Total helper: decimal value of a digit list, `0` if malformed. -/
def natFromDigits (cs : List Char) : Nat := (digitsToNat cs).getD 0

/-- Model of `strconv.ParseInt(s, 10, 64)`: the returned value together with
the success flag.  On a syntax error Go returns `0`; on a range error it
returns the clamped extremum (both with a non-nil error, hence `false`). -/
def go_strconv_ParseInt (s : String) : Int × Bool :=
  let (neg, ds) :=
    match s.data with
    | '+' :: cs => (false, cs)
    | '-' :: cs => (true, cs)
    | cs => (false, cs)
  match digitsToNat ds with
  | none => (0, false)
  | some n =>
    let v : Int := if neg then -(n : Int) else (n : Int)
    if v < -(2 ^ 63) then (-(2 ^ 63), false)
    else if v > 2 ^ 63 - 1 then (2 ^ 63 - 1, false)
    else (v, true)

/-- Mantissa-and-exponent part of `strconv.ParseFloat` (decimal forms only;
hex floats and Inf/NaN are outside the rational model). -/
def parseFloatCore (cs : List Char) : Option ℚ :=
  let (ip, r1) := cs.span Char.isDigit
  let (fp, r2) :=
    match r1 with
    | '.' :: r => r.span Char.isDigit
    | _ => ([], r1)
  if ip.isEmpty && fp.isEmpty then none
  else
    let m : ℚ := mkRat (natFromDigits (ip ++ fp) : Int) (10 ^ fp.length)
    match r2 with
    | [] => some m
    | e :: r3 =>
      if e == 'e' || e == 'E' then
        let (esign, r4) :=
          match r3 with
          | '+' :: r => (false, r)
          | '-' :: r => (true, r)
          | r => (false, r)
        match digitsToNat r4 with
        | some ex =>
          some (if esign then mkRat m.num (m.den * 10 ^ ex)
                else mkRat (m.num * 10 ^ ex) m.den)
        | none => none
      else none

/-- Model of `strconv.ParseFloat(s, 64)` as used by `parseFloat`: the parsed
value, `0` on a syntax error (the error itself is discarded by the caller).
float64 rounding is not modelled: the value is the exact rational. -/
def go_strconv_ParseFloat (s : String) : ℚ :=
  let (neg, cs) :=
    match s.data with
    | '+' :: cs => (false, cs)
    | '-' :: cs => (true, cs)
    | cs => (false, cs)
  match parseFloatCore cs with
  | some v => if neg then -v else v
  | none => 0

/-- Read exactly `k` decimal digits, returning their value and the rest. -/
def readDigitsAux : Nat → Nat → List Char → Option (Nat × List Char)
  | 0, acc, cs => some (acc, cs)
  | _ + 1, _, [] => none
  | k + 1, acc, c :: cs =>
    match digitVal c with
    | some d => readDigitsAux k (acc * 10 + d) cs
    | none => none

/-- Consume one expected character. -/
def expectChar (c : Char) : List Char → Option (List Char)
  | [] => none
  | x :: xs => if x == c then some xs else none

def isLeapYear (y : Nat) : Bool :=
  (y % 4 == 0 && y % 100 != 0) || y % 400 == 0

def daysInMonth (y m : Nat) : Nat :=
  if m == 2 then (if isLeapYear y then 29 else 28)
  else if m == 4 || m == 6 || m == 9 || m == 11 then 30
  else 31

/-- Days between 1970-01-01 and the Gregorian date `y-m-d` (valid for years
from 1, which covers the four-digit years of RFC 3339). -/
def daysFromCivil (y m d : Nat) : Int :=
  let yr := if m ≤ 2 then y - 1 else y
  let era := yr / 400
  let yoe := yr % 400
  let mp := (m + 9) % 12
  let doy := (153 * mp + 2) / 5 + (d - 1)
  let doe := yoe * 365 + yoe / 4 - yoe / 100 + doy
  ((era * 146097 + doe : Nat) : Int) - 719468

/-- Optional fractional-second part `".ddd…"`: nanoseconds (digits beyond the
ninth are truncated, short runs are scaled up), and the rest. -/
def readFrac : List Char → Option (Int × List Char)
  | '.' :: cs =>
    let (ds, rest) := cs.span Char.isDigit
    if ds.isEmpty then none
    else some ((natFromDigits (ds.take 9 ++ List.replicate (9 - ds.length) '0') : Int), rest)
  | cs => some (0, cs)

/-- Zone part of the RFC 3339 layout (`Z07:00`): `"Z"` or `±hh:mm`, returned
as seconds east of UTC. -/
def readOffset : List Char → Option (Int × List Char)
  | 'Z' :: cs => some (0, cs)
  | c :: cs =>
    if c == '+' || c == '-' then
      match readDigitsAux 2 0 cs with
      | some (hh, r1) =>
        match expectChar ':' r1 with
        | some r2 =>
          match readDigitsAux 2 0 r2 with
          | some (mm, r3) =>
            if hh ≤ 23 && mm ≤ 59 then
              some ((if c == '-' then -((hh * 3600 + mm * 60 : Nat) : Int)
                     else ((hh * 3600 + mm * 60 : Nat) : Int)), r3)
            else none
          | none => none
        | none => none
      | none => none
    else none
  | [] => none

/-- Model of `time.Parse(time.RFC3339, s)`, returning the instant's
`UnixNano` value on success. -/
def go_time_ParseRFC3339 (s : String) : Option Int := do
  let cs := s.data
  let (y, r) ← readDigitsAux 4 0 cs
  let r ← expectChar '-' r
  let (mo, r) ← readDigitsAux 2 0 r
  let r ← expectChar '-' r
  let (d, r) ← readDigitsAux 2 0 r
  let r ← expectChar 'T' r
  let (h, r) ← readDigitsAux 2 0 r
  let r ← expectChar ':' r
  let (mi, r) ← readDigitsAux 2 0 r
  let r ← expectChar ':' r
  let (se, r) ← readDigitsAux 2 0 r
  let (frac, r) ← readFrac r
  let (off, r) ← readOffset r
  if r.isEmpty && 1 ≤ y && 1 ≤ mo && mo ≤ 12 && 1 ≤ d && d ≤ daysInMonth y mo
      && h ≤ 23 && mi ≤ 59 && se ≤ 59 then
    some ((daysFromCivil y mo d * 86400 + ((h * 3600 + mi * 60 + se : Nat) : Int) - off)
            * 1000000000 + frac)
  else none

/-- `int64(x)` for a `uint64` value: two's-complement reinterpretation. -/
def int64ofUInt64 (n : Nat) : Int :=
  let m : Nat := n % 2 ^ 64
  if m < 2 ^ 63 then (m : Int) else (m : Int) - 2 ^ 64

/-- `uint64(x)` for an `int64` value. -/
def uint64ofInt64 (n : Int) : Nat := (n % (2 ^ 64 : Int)).toNat

/-- `int64(f)` for a float: truncation toward zero (out-of-range conversion,
implementation-defined in Go, is not modelled: the mathematical truncation is
returned). -/
def float64toInt64 (q : ℚ) : Int := if 0 ≤ q then q.floor else -((-q).floor)

/-- `parseInt`: the integer coercion.  Numeric kinds convert directly; a
string is first parsed as base-10 (`strconv.ParseInt`); if that errs, an
RFC 3339 parse is attempted and its `UnixNano` returned on success, otherwise
the (zero or clamped) `ParseInt` value is returned.  Any other kind
(e.g. a `time.Time` struct) falls off the switch and yields `0`. -/
def parseInt (i : GoVal) : Int :=
  match i with
  | .int n => n
  | .uint n => int64ofUInt64 n
  | .float q => float64toInt64 q
  | .str s =>
    let (val, ok) := go_strconv_ParseInt s
    if ok then val
    else
      match go_time_ParseRFC3339 s with
      | some t => t
      | none => val
  | .time _ => 0

/-- `parseFloat`: the floating-point coercion; a failed string parse
degrades to `0`. -/
def parseFloat (i : GoVal) : ℚ :=
  match i with
  | .int n => mkRat n 1
  | .uint n => mkRat (n % 2 ^ 64 : Nat) 1
  | .float q => q
  | .str s => go_strconv_ParseFloat s
  | .time _ => 0

def trimTrailingZeros (cs : List Char) : List Char :=
  (cs.reverse.dropWhile (· == '0')).reverse

/-- Exponent suffix of the `'E'` format: sign plus at least two digits. -/
def expPart (e : Int) : String :=
  (if e < 0 then "-" else "+") ++
    (let a := e.natAbs
     if a < 10 then "0" ++ toString a else toString a)

/-- Model of `strconv.FormatFloat(v, 'E', -1, 64)`.  In the rational model of
float64 the shortest-round-trip digit selection is approximated: the exact
rational is printed to at most 17 significant digits.  No claim depends on
this text. -/
def goFormatFloatE (q : ℚ) : String :=
  if q = 0 then "0E+00"
  else
    let sgn := if q < 0 then "-" else ""
    let n := q.num.natAbs
    let d := q.den
    let e : Int :=
      if d ≤ n then ((Nat.digits 10 (n / d)).length : Int) - 1
      else -(((Nat.digits 10 (d / n)).length : Int))
    let scale : Int := 16 - e
    let mant : Nat :=
      if 0 ≤ scale then n * 10 ^ scale.toNat / d
      else n / (d * 10 ^ (-scale).toNat)
    let ds := (toString mant).data
    match ds with
    | [] => sgn ++ "0E+00"
    | c :: rest =>
      let rest := trimTrailingZeros rest
      sgn ++ String.mk [c] ++ (if rest.isEmpty then "" else "." ++ String.mk rest)
        ++ "E" ++ expPart e

/-- `fmt.Sprint` applied to a `time.Time` (the fall-through branch of
`parseString` for non-primitive kinds).  The exact rendering of the Go
formatter is abstracted to a deterministic text; no claim depends on it. -/
def goTimeSprint (nanos : Int) : String := "time.Time(" ++ toString nanos ++ ")"

/-- `parseString`: the string coercion.  Integers format in decimal, floats
in scientific notation, strings pass through; a `time.Time` (struct kind)
falls through to `fmt.Sprint`.  (The `reflect.Interface` case of the Go
switch, a nil `interface{}` value mapping to `""`, has no representative
among the wire values.) -/
def parseString (i : GoVal) : String :=
  match i with
  | .int n => toString n
  | .uint n => toString (n % 2 ^ 64)
  | .float q => goFormatFloatE q
  | .str s => s
  | .time nanos => goTimeSprint nanos

/-- The `UnixNano`-style total nanosecond value of the zero `time.Time`
(January 1, year 1 UTC), unbounded rather than int64-overflowed. -/
def goZeroTimeUnixNano : Int := -62135596800 * 1000000000

/-- `parseTime`: a non-empty string parses as RFC 3339 (failure yields the
zero time); every other value is read as nanoseconds since the epoch via the
numeric kinds (an empty string and any unlisted kind leave `nano = 0`).
`time.Unix(nano/1e9, nano%1e9)` reassembles exactly `nano` total
nanoseconds, so the model returns the total directly. -/
def parseTime (i : GoVal) : Int :=
  match i with
  | .str s =>
    if s == "" then 0
    else
      match go_time_ParseRFC3339 s with
      | some t => t
      | none => goZeroTimeUnixNano
  | .int n => n
  | .uint n => int64ofUInt64 n
  | .float q => float64toInt64 q
  | .time _ => 0

/-! ## Destination values and decode results -/

mutual
/-- A destination value, as seen through `reflect`:
* the scalar kinds (`vint`/`vuint` model the signed/unsigned integer kinds at
  64-bit width; narrower widths, whose `SetInt` silently truncates, are not
  needed by any claim);
* `vbool` stands for the kinds outside the decode switch (hitting its
  `default: "unrecognized type"` branch);
* `vtime` is a `time.Time` (`Kind() == Struct`, special-cased by type name),
  as total nanoseconds since the Unix epoch;
* `vptr zero p` is a pointer whose pointee type has zero value `zero`
  (`reflect.New(t.Elem())` allocates exactly that) and which is nil iff
  `p = none`;
* `vstruct` is a record with its fields in declaration order;
* `vslice zero xs` is a slice with element-type zero value `zero`
  (`reflect.MakeSlice` fills new room with it); its capacity is taken to be
  its length;
* `vmap zero entries` is a `map[string]T` with element zero value `zero`
  (maps with non-string keys, rejected by `alignToMap`, and the observable
  nil/empty map distinction are not represented);
* `viface c` is an `interface{}` slot, empty iff `c = none`. -/
inductive DVal where
  | vint (n : Int)
  | vuint (n : Nat)
  | vfloat (q : ℚ)
  | vstr (s : String)
  | vbool (b : Bool)
  | vtime (nanos : Int)
  | vptr (zero : DVal) (p : Option DVal)
  | vstruct (flds : List StructField)
  | vslice (zero : DVal) (elems : List DVal)
  | vmap (zero : DVal) (entries : List (String × DVal))
  | viface (c : Option DVal)

/-- One record field: its Go name, its `inf` struct tag (`""` when absent)
and its current value. -/
inductive StructField where
  | mk (name : String) (tag : String) (val : DVal)
end

def StructField.name : StructField → String
  | .mk n _ _ => n

def StructField.tag : StructField → String
  | .mk _ t _ => t

def StructField.val : StructField → DVal
  | .mk _ _ v => v

/-- Outcome of a decode step over a state `α` (the mutated destination):
normal return (`ok`), error return carrying the state at the time of the
error (Go mutates in place, so partial writes persist), a run-time panic, or
fuel exhaustion (the Go recursion can diverge). -/
inductive Res (α : Type) where
  | ok (a : α)
  | err (msg : String) (a : α)
  | panic
  | nofuel

def Res.map {α β : Type} (f : α → β) : Res α → Res β
  | .ok a => .ok (f a)
  | .err m a => .err m (f a)
  | .panic => .panic
  | .nofuel => .nofuel

abbrev DecRes := Res DVal

/-- Run the steps of a Go `for` loop that `return`s on the first error. -/
def Res.fold {α β : Type} (f : α → β → Res α) : α → List β → Res α
  | a, [] => .ok a
  | a, b :: bs =>
    match f a b with
    | .ok a2 => Res.fold f a2 bs
    | r => r

/-- The state carried by a finished call (`ok` or `err`); `none` for a panic
or fuel exhaustion. -/
def Res.state {α : Type} : Res α → Option α
  | .ok a => some a
  | .err _ a => some a
  | .panic => none
  | .nofuel => none

/-- `emptyTags`: the always-empty tag map passed to nested decodes. -/
def emptyTags : List (String × String) := []

/-- Index of the first list element satisfying `p` (the search loops of
`alignToStruct` and `columnIndex`). -/
def firstIdx {α : Type} (p : α → Bool) : List α → Option Nat
  | [] => none
  | a :: as => if p a then some 0 else (firstIdx p as).map (· + 1)

/-- `inColumns`: an empty filter means "all columns". -/
def inColumns (column : String) (columns : List String) : Bool :=
  if columns.length == 0 then true
  else columns.contains column

/-- `columnIndex`: `0` for an empty schema, the first index of `column`, or
`-1` when absent. -/
def columnIndex (column : String) (columns : List String) : Int :=
  if columns.length == 0 then 0
  else
    match firstIdx (· == column) columns with
    | some i => (i : Int)
    | none => -1

/-- `makePtrDstVal`: while the destination is a nil pointer, allocate the
pointee's zero value and step into it.  Since the Go function mutates the
chain in place and returns the innermost slot, the model returns that slot
together with the context that rebuilds the chain around its final value.
A non-nil pointer is returned as-is (the loop guard fails). -/
def makePtrCtx : DVal → DVal × (DVal → DVal)
  | .vptr zero none =>
    let (d, k) := makePtrCtx zero
    (d, fun x => .vptr zero (some (k x)))
  | d => (d, id)

/-- `makeSliceDstVal`: grow the slice to length `n` (new room holds the
element type's zero value, the old elements are copied to the front). -/
def makeSliceList (zero : DVal) (xs : List DVal) (n : Nat) : List DVal :=
  if xs.length < n then xs ++ List.replicate (n - xs.length) zero else xs

/-- The signature of `parseSingle`, threaded through the `align*` helpers in
place of Go's direct mutual recursion (each helper receives the
one-level-less-fuel `parseSingle`). -/
abbrev PS := List String → List GoVal → List (String × String) → DVal →
  List String → DecRes

/-- The field-selection of `alignToStruct`'s closure: the first field whose
`inf` tag's first comma segment equals `col` (the tag-scan loop), else the
field named `snakeToTitle col` (the `FieldByName` fallback — which never
looks at the tag), else none. -/
def structFieldIdx (flds : List StructField) (col : String) : Option Nat :=
  match firstIdx (fun (f : StructField) => ((goSplitStr ',' f.tag).headD "") == col) flds with
  | some i => some i
  | none => firstIdx (fun (f : StructField) => f.name == snakeToTitle col) flds

/-- The closure `parse` inside `alignToStruct`: bind source `col`/`val` into
the record `flds`.  A filtered-out source is skipped; a source matching no
field is skipped; otherwise the selected field is decoded in isolation. -/
def structParse (ps : PS) (columns : List String) (flds : List StructField)
    (col : String) (val : GoVal) : Res (List StructField) :=
  if !inColumns col columns then .ok flds
  else
    match structFieldIdx flds col with
    | none => .ok flds
    | some i =>
      match flds[i]? with
      | none => .panic
      | some f =>
        (ps [col] [val] emptyTags f.val []).map
          (fun d => flds.set i (.mk f.name f.tag d))

/-- `alignToStruct`: a `time.Time` destination takes `parseTime vals[0]`
directly (panicking on an empty row); otherwise the column/value counts must
agree, and each column (in schema order) and then each tag is bound through
`structParse`.  Called only with struct-kind destinations; anything else
would panic in `reflect`. -/
def alignToStruct (ps : PS) (cols : List String) (vals : List GoVal)
    (tags : List (String × String)) (dst : DVal) (columns : List String) : DecRes :=
  match dst with
  | .vtime _ =>
    match vals.head? with
    | none => .panic
    | some v => .ok (.vtime (parseTime v))
  | .vstruct flds =>
    if cols.length != vals.length then
      .err "columns size not equal values size" (.vstruct flds)
    else
      (Res.fold (fun fs cv => structParse ps columns fs cv.1 cv.2) flds
        (cols.zip vals ++ tags.map (fun tv => (tv.1, GoVal.str tv.2)))).map .vstruct
  | _ => .panic

/-- Insert-or-replace for the string-keyed Go maps of the model
(`SetMapIndex` on the decode side, the tag/field maps on the encode side). -/
def insertEntryG {α : Type} : List (String × α) → String → α → List (String × α)
  | [], k, v => [(k, v)]
  | (k0, v0) :: rest, k, v =>
    if k0 == k then (k0, v) :: rest else (k0, v0) :: insertEntryG rest k v

/-- The `parse` closure of `alignToMap`: a selected source decodes into a
fresh zero of the element type and is stored under its own name (the entry is
not written if the nested decode errs — the fresh value is a local). -/
def mapParse (ps : PS) (zero : DVal) (columns : List String)
    (entries : List (String × DVal)) (k : String) (v : GoVal) :
    Res (List (String × DVal)) :=
  if !inColumns k columns then .ok entries
  else
    match ps [k] [v] emptyTags zero [] with
    | .ok d => .ok (insertEntryG entries k d)
    | .err e _ => .err e entries
    | .panic => .panic
    | .nofuel => .nofuel

/-- `alignToMap` over a string-keyed map destination: the column/value counts
must agree; each column and then each tag becomes one map entry.  (The
"invalid key type" error of the Go function has no representative: `vmap`
is string-keyed by construction.) -/
def alignToMap (ps : PS) (cols : List String) (vals : List GoVal)
    (tags : List (String × String)) (dst : DVal) (columns : List String) : DecRes :=
  match dst with
  | .vmap zero entries =>
    if cols.length != vals.length then
      .err "columns size not equal values size" (.vmap zero entries)
    else
      (Res.fold (fun es cv => mapParse ps zero columns es cv.1 cv.2) entries
        (cols.zip vals ++ tags.map (fun tv => (tv.1, GoVal.str tv.2)))).map (.vmap zero)
  | _ => .panic

/-- The filtered loop of `alignToSlice`: position `i` takes the value of the
column named `columns[i]` (else the tag of that name, else is skipped),
decoded with the single-name filter `[columns[i]]`. -/
def sliceCols (ps : PS) (cols : List String) (vals : List GoVal)
    (tags : List (String × String)) : List DVal → Nat → List String → Res (List DVal)
  | xs, _, [] => .ok xs
  | xs, i, col :: restCols =>
    let valRes : Option (Option GoVal) :=
      if columnIndex col cols ≥ 0 then
        match vals[(columnIndex col cols).toNat]? with
        | some v => some (some v)
        | none => none
      else
        match List.lookup col tags with
        | some v => some (some (GoVal.str v))
        | none => some none
    match valRes with
    | none => .panic
    | some none => sliceCols ps cols vals tags xs (i + 1) restCols
    | some (some val) =>
      match xs[i]? with
      | none => .panic
      | some d =>
        match ps [col] [val] emptyTags d [col] with
        | .ok d2 => sliceCols ps cols vals tags (xs.set i d2) (i + 1) restCols
        | .err e d2 => .err e (xs.set i d2)
        | .panic => .panic
        | .nofuel => .nofuel

/-- The unfiltered loop of `alignToSlice`: position `i` takes column `i`
(tags ignored).  `vals[i:i+1]` is modelled with capacity = length, so a short
row panics. -/
def sliceNoCols (ps : PS) (vals : List GoVal) :
    List DVal → Nat → List String → Res (List DVal)
  | xs, _, [] => .ok xs
  | xs, i, col :: restCols =>
    match vals[i]?, xs[i]? with
    | some v, some d =>
      match ps [col] [v] emptyTags d [] with
      | .ok d2 => sliceNoCols ps vals (xs.set i d2) (i + 1) restCols
      | .err e d2 => .err e (xs.set i d2)
      | .panic => .panic
      | .nofuel => .nofuel
    | _, _ => .panic

/-- `alignToSlice`: with a filter the slice grows to the filter's length and
each position binds by name; without one it grows to the column count and
binds positionally. -/
def alignToSlice (ps : PS) (cols : List String) (vals : List GoVal)
    (tags : List (String × String)) (dst : DVal) (columns : List String) : DecRes :=
  match dst with
  | .vslice zero xs =>
    match columns with
    | _ :: _ =>
      (sliceCols ps cols vals tags (makeSliceList zero xs columns.length) 0 columns).map
        (.vslice zero)
    | [] =>
      (sliceNoCols ps vals (makeSliceList zero xs cols.length) 0 cols).map (.vslice zero)
  | _ => .panic

/-- The value-resolution block at the head of `parseSingle` (given the
eagerly read `vals[0]`): a non-empty filter re-reads `vals` at the first
filter name's column index (`none` = index out of range = panic), else takes
the tag of that name, else keeps `vals[0]`. -/
def resolveVal (cols : List String) (vals : List GoVal)
    (tags : List (String × String)) (columns : List String) (v0 : GoVal) :
    Option GoVal :=
  match columns with
  | [] => some v0
  | c0 :: _ =>
    if columnIndex c0 cols ≥ 0 then
      match vals[(columnIndex c0 cols).toNat]? with
      | some v => some v
      | none => none
    else
      match List.lookup c0 tags with
      | some v => some (GoVal.str v)
      | none => some v0

/-- The raw wire value stored into an `interface{}` slot keeps its dynamic
type. -/
def dvalOfGoVal : GoVal → DVal
  | .int n => .vint n
  | .uint n => .vuint n
  | .float q => .vfloat q
  | .str s => .vstr s
  | .time n => .vtime n

/-- `parseSingle`, the decode engine's dispatcher.  An empty schema returns
at once; otherwise `vals[0]` is read eagerly (panicking on an empty row), a
single-name filter re-resolves the value by column index then tag lookup, and
the destination's kind selects the branch.  Fuel bounds the recursion depth:
each nested call runs with one unit less. -/
def parseSingle : Nat → List String → List GoVal → List (String × String) →
    DVal → List String → DecRes
  | 0, _, _, _, _, _ => .nofuel
  | fuel + 1, cols, vals, tags, dst, columns =>
    if cols.length == 0 then .ok dst
    else
      match vals.head? with
      | none => .panic
      | some v0 =>
        match resolveVal cols vals tags columns v0 with
        | none => .panic
        | some val =>
          match dst with
          | .vint _ => .ok (.vint (parseInt val))
          | .vuint _ => .ok (.vuint (uint64ofInt64 (parseInt val)))
          | .vfloat _ => .ok (.vfloat (parseFloat val))
          | .vstr _ => .ok (.vstr (parseString val))
          | .vptr zero p =>
            let dk := makePtrCtx (.vptr zero p)
            (parseSingle fuel cols vals tags dk.1 columns).map dk.2
          | .vtime t =>
            alignToStruct (parseSingle fuel) cols vals tags (.vtime t) columns
          | .vstruct flds =>
            alignToStruct (parseSingle fuel) cols vals tags (.vstruct flds) columns
          | .vslice zero xs =>
            alignToSlice (parseSingle fuel) cols vals tags (.vslice zero xs) columns
          | .vmap zero es =>
            alignToMap (parseSingle fuel) cols vals tags (.vmap zero es) columns
          | .viface _ =>
            if vals.length == 1 || columns.length == 1 then
              .ok (.viface (some (dvalOfGoVal val)))
            else
              -- `dst.Set(mp)` happens before `alignToMap`, so a partial map
              -- stays in the slot when the latter errs.
              match alignToMap (parseSingle fuel) cols vals tags
                  (.vmap (.viface none) []) columns with
              | .ok d => .ok (.viface (some d))
              | .err e d => .err e (.viface (some d))
              | .panic => .panic
              | .nofuel => .nofuel
          | .vbool b => .err "unrecognized type" (.vbool b)

/-- A query result (`models.Row`): the shared column schema, one value row
per data row, and the per-result tag set (`none` models a nil map).  The tag
map is a key/value list; Go's randomized map iteration order is fixed to the
list order. -/
structure Row where
  Columns : List String
  Values : List (List GoVal)
  Tags : Option (List (String × String))

/-- The single-name-filter existence check of `ParseResult`: `true` when the
call must fail with "column not exists". -/
def filterCheckFails (cols : List String) (tags : List (String × String))
    (columns : List String) : Bool :=
  match columns with
  | [c] => (List.lookup c tags).isNone && !(inColumns c cols)
  | _ => false

/-- The `toslice` closure of `ParseResult`: decode row `i` into slot `i`. -/
def toslice (fuel : Nat) (cols : List String) (tags : List (String × String))
    (columns : List String) : List DVal → Nat → List (List GoVal) → Res (List DVal)
  | xs, _, [] => .ok xs
  | xs, i, vs :: rest =>
    match xs[i]? with
    | none => .panic
    | some d =>
      match parseSingle fuel cols vs tags d columns with
      | .ok d2 => toslice fuel cols tags columns (xs.set i d2) (i + 1) rest
      | .err e d2 => .err e (xs.set i d2)
      | .panic => .panic
      | .nofuel => .nofuel

/-- `ParseResult`, the result materializer.  `dst` models the settable value
behind the caller's pointer (`reflect.Indirect(reflect.ValueOf(dst))`; the
"dst cannot be setted" branch for non-addressable arguments has no
representative here).  A nil tag map is normalized to empty; a single-name
filter must name an existing column or tag; remaining nil pointers are
allocated through; then the destination's kind decides the row fan-out:
`interface{}` takes nothing/one row/a fresh slice of rows, a slice grows to
the row count and takes every row, anything else takes row 0 only. -/
def ParseResult (fuel : Nat) (dst : DVal) (serie : Row)
    (columns : List String) : DecRes :=
  let cols := serie.Columns
  let vals := serie.Values
  let tags := serie.Tags.getD []
  if filterCheckFails cols tags columns then
    .err ("column not exists: `" ++ columns.headD "" ++ "`") dst
  else
    let dk := makePtrCtx dst
    match dk.1 with
    | .viface c =>
      match vals with
      | [] => .ok (dk.2 (.viface c))
      | [v] => (parseSingle fuel cols v tags (.viface c) []).map dk.2
      | _ =>
        match toslice fuel cols tags columns
            (List.replicate vals.length (DVal.viface none)) 0 vals with
        | .ok xs => .ok (dk.2 (.viface (some (.vslice (.viface none) xs))))
        | .err e _ => .err e (dk.2 (.viface c))
        | .panic => .panic
        | .nofuel => .nofuel
    | .vslice zero xs =>
      (toslice fuel cols tags columns (makeSliceList zero xs vals.length) 0 vals).map
        (fun ys => dk.2 (.vslice zero ys))
    | other =>
      match vals.head? with
      | none => .panic
      | some v0 => (parseSingle fuel cols v0 tags other columns).map dk.2

/-! ## Encode engine (`ToPoint`) -/

/-- One field of a record being encoded: Go name, `inf` tag, and its value
(restricted to the wire-value kinds; record-valued fields are not needed by
any claim). -/
structure EncField where
  name : String
  tag : String
  val : GoVal

/-- A record to encode: its (unqualified) type name, the result of its
`Measurement()` method when such a method exists (looked up on the value or
its pointer), and its fields in declaration order. -/
structure GoStruct where
  typeName : String
  measurement? : Option String
  fields : List EncField

/-- The encoder's input after `reflect.Indirect`: a struct, or anything else
(which yields a nil `*client.Point`). -/
inductive EncInput where
  | strct (s : GoStruct)
  | nonStruct

/-- The write point handed to the client. -/
structure Point where
  measurement : String
  tags : List (String × String)
  fields : List (String × GoVal)
  time : Int

/-- Outcome of `ToPoint`: a point, a nil pointer, or a panic (the
`fv.Interface().(time.Time)` assertion on a mistyped time field). -/
inductive EncRes where
  | point (p : Point)
  | nil
  | panic

/-- Modelled from the spec: the external constructor `client.NewPoint` of the
influxdb client library (out of scope per §1/§6 of the spec) is modelled as a
total Point constructor — §4.5 has the encoder always produce a point
carrying exactly these four components.  (The error result of the real
library, which `ToPoint` discards, is not modelled.) -/
def client_NewPoint (measurement : String) (tags : List (String × String))
    (fields : List (String × GoVal)) (t : Int) : Point :=
  ⟨measurement, tags, fields, t⟩

/-- The unqualified tail of a type name: everything after the last `'.'`
(`strings.LastIndexByte`); the name itself when it has no dot. -/
def afterLastDot (s : String) : String :=
  ((goSplitStr '.' s).getLast?).getD s

/-- The field loop of `ToPoint`: skip `"-"`-tagged fields; a field named
`Time` or tagged `time` supplies the timestamp (panicking, `none`, if its
value is not a `time.Time`); otherwise the field's resolved name routes its
value to the tag set (tag `…,tag`, string-coerced) or to the field set (raw). -/
def toPointFields : List EncField → List (String × String) → List (String × GoVal) →
    Int → Option (List (String × String) × List (String × GoVal) × Int)
  | [], tags, fields, now => some (tags, fields, now)
  | f :: rest, tags, fields, now =>
    if f.tag == "-" then toPointFields rest tags fields now
    else if f.name == "Time" || f.tag == "time" then
      match f.val with
      | .time n => toPointFields rest tags fields n
      | _ => none
    else
      let nm := (goSplitStr ',' f.tag).headD ""
      let nm := if nm == "" then titleToSnake f.name else nm
      if goHasSuffix f.tag ",tag" then
        toPointFields rest (insertEntryG tags nm (parseString f.val)) fields now
      else
        toPointFields rest tags (insertEntryG fields nm f.val) now

/-- `ToPoint`, the encode engine.  `nowNano` is the ambient wall clock
(`time.Now()`), made an explicit argument.  A non-struct input yields nil;
the measurement comes from the `Measurement()` method when present, else from
the snake conversion of the unqualified type name; then the fields are
partitioned and the point assembled. -/
def ToPoint (nowNano : Int) (structure_ : EncInput) : EncRes :=
  match structure_ with
  | .nonStruct => .nil
  | .strct s =>
    let measurement :=
      match s.measurement? with
      | some m => m
      | none => titleToSnake (afterLastDot s.typeName)
    match toPointFields s.fields [] [] nowNano with
    | none => .panic
    | some (tags, fields, now) => .point (client_NewPoint measurement tags fields now)

/-! ## Predicates and observers used by the claim statements -/

/-- A destination kind that is neither an ordered sequence nor a
dynamically-typed holder: `ParseResult` decodes only row 0 into it. -/
def singularShape : DVal → Bool
  | .vslice _ _ => false
  | .viface _ => false
  | _ => true

/-- The value of record field `i` of a destination (for record destinations
only). -/
def dvalFieldAt (d : DVal) (i : Nat) : Option DVal :=
  match d with
  | .vstruct fs => (fs[i]?).map StructField.val
  | _ => none

def asciiLowerChars : List Char :=
  ['a', 'b', 'c', 'd', 'e', 'f', 'g', 'h', 'i', 'j', 'k', 'l', 'm',
   'n', 'o', 'p', 'q', 'r', 's', 't', 'u', 'v', 'w', 'x', 'y', 'z']

/-- The claim's notion of an already-snake string (its own words): lower-case
letter segments separated by underscores, none empty (hence no leading or
trailing underscore). -/
def specSnake (s : String) : Bool :=
  (goSplit '_' s.data).all
    (fun seg => !seg.isEmpty && seg.all (fun c => asciiLowerChars.contains c))

/-- `strings.Join` with a one-character separator (used to state the
split/join identity; the source's own join in `snakeToTitle` has an empty
separator and is the plain `flatten`). -/
def goJoin (sep : Char) : List (List Char) → List Char
  | [] => []
  | [x] => x
  | x :: y :: xs => x ++ sep :: goJoin sep (y :: xs)

/-- The name under which `ToPoint` routes a field: the explicit first comma
segment of its tag, else the snake conversion of its Go name. -/
def encName (f : EncField) : String :=
  let nm := (goSplitStr ',' f.tag).headD ""
  if nm == "" then titleToSnake f.name else nm

/-- A field that `ToPoint` routes into the tag set. -/
def tagRole (f : EncField) : Prop :=
  ¬f.tag = "-" ∧ ¬f.name = "Time" ∧ ¬f.tag = "time" ∧ goHasSuffix f.tag ",tag" = true

/-- A field that `ToPoint` routes into the field set. -/
def fieldRole (f : EncField) : Prop :=
  ¬f.tag = "-" ∧ ¬f.name = "Time" ∧ ¬f.tag = "time" ∧ goHasSuffix f.tag ",tag" = false

instance (f : EncField) : Decidable (tagRole f) := by
  unfold tagRole; infer_instance

instance (f : EncField) : Decidable (fieldRole f) := by
  unfold fieldRole; infer_instance

/-! ## Theorems -/

/-- Claim C7: the integer coercion is a fixed function of the input:
the RFC 3339 instant `2021-01-02T15:04:05Z` coerces to its nanosecond
Unix-epoch value 1609599845000000000, the string `"42"` to 42, and the
float 3.7 to 3 by truncation toward zero. -/
theorem C7_integer_coercion_values :
    parseInt (.str "2021-01-02T15:04:05Z") = 1609599845000000000 ∧
    parseInt (.str "42") = 42 ∧
    parseInt (.float (mkRat 37 10)) = 3 ∧ mkRat 37 10 = (3.7 : ℚ) := by
  refine ⟨by decide, by decide, by decide, ?_⟩
  norm_num [mkRat, Rat.normalize]

/-- Claim C5, counterexample: with an empty column schema the single-name
membership check is disabled (`inColumns` treats an empty list as "all"),
so a filter name present in neither the columns nor the tags produces no
"column not exists" error — the call succeeds leaving the destination
unchanged. -/
theorem C5_counterexample :
    ParseResult 2 (DVal.vint 0) ⟨[], [[]], none⟩ ["region"] = Res.ok (DVal.vint 0) ∧
    ("region" ∉ ([] : List String)) ∧
    List.lookup "region" ([] : List (String × String)) = none := by
  exact ⟨rfl, by decide, rfl⟩

/-- Claim C5 (amended): provided the result's column schema is non-empty, a
single-name column filter whose name is neither a column nor a tag key makes
`ParseResult` return the "column not exists" error with the destination
completely unchanged (the check precedes every allocation and write). -/
theorem C5_missing_single_filter_errs (fuel : Nat) (dst : DVal) (cols : List String)
    (vals : List (List GoVal)) (tags? : Option (List (String × String))) (c : String)
    (hne : cols ≠ [])
    (htag : List.lookup c (tags?.getD []) = none)
    (hcol : c ∉ cols) :
    ParseResult fuel dst ⟨cols, vals, tags?⟩ [c]
      = Res.err ("column not exists: `" ++ c ++ "`") dst := by
  have hchk : filterCheckFails cols (tags?.getD []) [c] = true := by
    simp [filterCheckFails, htag, inColumns, List.length_eq_zero, hne, hcol]
  simp [ParseResult, hchk]

/-- Witness for C5. -/
theorem C5_witness :
    (("region" : String) ∉ (["a"] : List String)) ∧
    ParseResult 2 (DVal.vint 0) ⟨["a"], [[GoVal.int 1]], none⟩ ["region"]
      = Res.err "column not exists: `region`" (DVal.vint 0) :=
  ⟨by decide,
   C5_missing_single_filter_errs 2 (DVal.vint 0) ["a"] [[GoVal.int 1]] none "region"
     (by decide) rfl (by decide)⟩

/-- Claim C6, counterexample: a scalar destination decodes a row whose value
count (1) differs from the column count (2) without any error — the arity
check lives only in the record and map branches. -/
theorem C6_counterexample :
    parseSingle 1 ["a", "b"] [GoVal.int 1] [] (DVal.vint 0) [] = Res.ok (DVal.vint 1) ∧
    (["a", "b"] : List String).length ≠ ([GoVal.int 1] : List GoVal).length := by
  exact ⟨rfl, by decide⟩

/-- Claim C6 (amended): the "columns size not equal values size" error is
raised exactly by the record (non-`time.Time`) and string-keyed map branches:
for an unfiltered decode of a non-empty mismatched row into such a
destination the error is returned with the destination unchanged (scalar,
slice, time and dynamic destinations perform no such check). -/
theorem C6_arity_error_struct_map (fuel : Nat) (cols : List String) (vals : List GoVal)
    (tags : List (String × String)) (v0 : GoVal) (vs : List GoVal)
    (hc : cols ≠ []) (hv : vals = v0 :: vs) (hlen : cols.length ≠ vals.length) :
    (∀ flds, parseSingle (fuel + 1) cols vals tags (.vstruct flds) []
        = .err "columns size not equal values size" (.vstruct flds)) ∧
    (∀ zero entries, parseSingle (fuel + 1) cols vals tags (.vmap zero entries) []
        = .err "columns size not equal values size" (.vmap zero entries)) := by
  subst hv
  have hc0 : (cols.length == 0) = false := by
    cases cols with
    | nil => exact absurd rfl hc
    | cons a as => rfl
  constructor
  · intro flds
    simp [parseSingle, alignToStruct, hc0, hlen, resolveVal]
    intro heq
    exact absurd heq (by simpa using hlen)
  · intro zero entries
    simp [parseSingle, alignToMap, hc0, hlen, resolveVal]
    intro heq
    exact absurd heq (by simpa using hlen)

/-- Witness for C6. -/
theorem C6_witness :
    ((["a", "b"] : List String).length ≠ ([GoVal.int 1] : List GoVal).length) ∧
    parseSingle 1 ["a", "b"] [GoVal.int 1] [] (DVal.vstruct []) []
      = Res.err "columns size not equal values size" (DVal.vstruct []) :=
  ⟨by decide,
   (C6_arity_error_struct_map 0 ["a", "b"] [GoVal.int 1] [] (GoVal.int 1) []
     (by decide) rfl (by decide)).1 []⟩

/-- Claim C9: when the destination's shape after stripping nil pointers is
neither a slice nor an `interface{}`, only row 0 reaches the decoder: the
materialize call on a result with extra rows equals the call on the result
truncated to its first row (so the extra rows neither affect the destination
nor produce an error). -/
theorem C9_singular_first_row_only (fuel : Nat) (dst : DVal) (cols : List String)
    (v0 : List GoVal) (rest : List (List GoVal))
    (tags? : Option (List (String × String))) (columns : List String)
    (h : singularShape (makePtrCtx dst).1 = true) :
    ParseResult fuel dst ⟨cols, v0 :: rest, tags?⟩ columns
      = ParseResult fuel dst ⟨cols, [v0], tags?⟩ columns := by
  unfold ParseResult
  rcases hmk : makePtrCtx dst with ⟨dv, k⟩
  rw [hmk] at h
  simp only [hmk]
  cases dv <;> simp_all [singularShape]

/-- Witness for C9. -/
theorem C9_witness :
    singularShape (makePtrCtx (DVal.vint 0)).1 = true ∧
    ParseResult 1 (DVal.vint 0) ⟨["a"], [[GoVal.int 1], [GoVal.int 2]], none⟩ []
      = ParseResult 1 (DVal.vint 0) ⟨["a"], [[GoVal.int 1]], none⟩ [] :=
  ⟨rfl, C9_singular_first_row_only 1 (DVal.vint 0) ["a"] [GoVal.int 1] [[GoVal.int 2]]
    none [] rfl⟩

/-- Claim C10: on a zero-row result a singular-shaped destination makes
`ParseResult` read `vals[0]` unconditionally (once the filter precheck
passes), so the total embedding reaches the out-of-bounds outcome — a panic,
not a defined result. -/
theorem C10_zero_rows_panics (fuel : Nat) (dst : DVal) (cols : List String)
    (tags? : Option (List (String × String))) (columns : List String)
    (h : singularShape (makePtrCtx dst).1 = true)
    (hf : filterCheckFails cols (tags?.getD []) columns = false) :
    ParseResult fuel dst ⟨cols, [], tags?⟩ columns = Res.panic := by
  unfold ParseResult
  rcases hmk : makePtrCtx dst with ⟨dv, k⟩
  rw [hmk] at h
  simp only [hmk, hf]
  cases dv <;> simp_all [singularShape]

/-- Witness for C10. -/
theorem C10_witness :
    singularShape (makePtrCtx (DVal.vint 0)).1 = true ∧
    ParseResult 5 (DVal.vint 0) ⟨["a"], [], none⟩ [] = Res.panic :=
  ⟨rfl, C10_zero_rows_panics 5 (DVal.vint 0) ["a"] none [] rfl rfl⟩

theorem toPointFields_tags_only (flds : List EncField)
    (h : ∀ f ∈ flds, f.tag = "-" ∨
      (goHasSuffix f.tag ",tag" = true ∧ f.name ≠ "Time" ∧ f.tag ≠ "time")) :
    ∀ tags now, ∃ tags2, toPointFields flds tags [] now = some (tags2, [], now) := by
  induction flds with
  | nil => exact fun tags now => ⟨tags, rfl⟩
  | cons f rest ih =>
    intro tags now
    have hrest : ∀ g ∈ rest, g.tag = "-" ∨
        (goHasSuffix g.tag ",tag" = true ∧ g.name ≠ "Time" ∧ g.tag ≠ "time") :=
      fun g hg => h g (by simp [hg])
    by_cases hdash : f.tag = "-"
    · simpa [toPointFields, hdash] using ih hrest tags now
    · rcases h f (by simp) with htag | ⟨hsfx, hn, ht⟩
      · exact absurd htag hdash
      · simpa [toPointFields, beq_eq_false_iff_ne, hdash, hn, ht, hsfx] using
          ih hrest _ now

/-- Claim C4: a record whose every field is either ignore-marked or
tag-marked (none named `Time` or annotated `time`) still encodes to a
present point with an empty field set and the default wall-clock timestamp.
The external point constructor is spec-modelled (see `client_NewPoint`). -/
theorem C4_tag_only_record_encodes (nowNano : Int) (tn : String)
    (meas : Option String) (flds : List EncField)
    (h : ∀ f ∈ flds, f.tag = "-" ∨
      (goHasSuffix f.tag ",tag" = true ∧ f.name ≠ "Time" ∧ f.tag ≠ "time")) :
    ∃ p, ToPoint nowNano (.strct ⟨tn, meas, flds⟩) = .point p ∧
      p.fields = [] ∧ p.time = nowNano := by
  obtain ⟨tags2, heq⟩ := toPointFields_tags_only flds h [] nowNano
  exact ⟨⟨(match meas with
           | some m => m
           | none => titleToSnake (afterLastDot tn)), tags2, [], nowNano⟩,
    by simp [ToPoint, heq, client_NewPoint], rfl, rfl⟩

/-- Witness for C4. -/
theorem C4_witness :
    (∀ f ∈ [EncField.mk "A" "a,tag" (.str "v")], f.tag = "-" ∨
      (goHasSuffix f.tag ",tag" = true ∧ f.name ≠ "Time" ∧ f.tag ≠ "time")) ∧
    ∃ p, ToPoint 7 (.strct ⟨"MyThing", none, [EncField.mk "A" "a,tag" (.str "v")]⟩)
      = .point p ∧ p.fields = [] ∧ p.time = 7 :=
  ⟨by decide, C4_tag_only_record_encodes 7 "MyThing" none _ (by decide)⟩

theorem lookup_insertEntryG_isSome {α : Type} (m : List (String × α))
    (k0 k : String) (v : α)
    (h : (List.lookup k (insertEntryG m k0 v)).isSome = true) :
    k = k0 ∨ (List.lookup k m).isSome = true := by
  induction m with
  | nil =>
    simp only [insertEntryG, List.lookup] at h
    by_cases hk : k == k0
    · exact Or.inl (by simpa using hk)
    · simp [hk] at h
  | cons p rest ih =>
    obtain ⟨k1, v1⟩ := p
    by_cases h1 : k1 == k0
    · simp only [insertEntryG, h1, if_pos] at h
      by_cases hk : k == k1
      · simp_all
      · simp only [List.lookup, hk] at h ⊢
        exact Or.inr h
    · simp only [insertEntryG, h1, if_neg, Bool.false_eq_true, not_false_iff] at h
      by_cases hk : k == k1
      · simp_all [List.lookup]
      · simp only [List.lookup, hk] at h ⊢
        exact ih h

theorem toPointFields_key_origin (flds : List EncField) :
    ∀ tags fields now tg fl nw,
      toPointFields flds tags fields now = some (tg, fl, nw) →
      (∀ k, (List.lookup k tg).isSome = true →
        (List.lookup k tags).isSome = true ∨ ∃ f ∈ flds, tagRole f ∧ encName f = k) ∧
      (∀ k, (List.lookup k fl).isSome = true →
        (List.lookup k fields).isSome = true ∨ ∃ f ∈ flds, fieldRole f ∧ encName f = k) := by
  induction flds with
  | nil =>
    intro tags fields now tg fl nw heq
    simp only [toPointFields, Option.some.injEq, Prod.mk.injEq] at heq
    obtain ⟨h1, h2, _⟩ := heq
    subst h1; subst h2
    exact ⟨fun k hk => Or.inl hk, fun k hk => Or.inl hk⟩
  | cons f rest ih =>
    intro tags fields now tg fl nw heq
    by_cases hdash : f.tag = "-"
    · have hd : (f.tag == "-") = true := by simpa using hdash
      simp only [toPointFields, hd, if_true] at heq
      obtain ⟨h1, h2⟩ := ih tags fields now tg fl nw heq
      refine ⟨fun k hk => ?_, fun k hk => ?_⟩
      · rcases h1 k hk with hh | ⟨g, hg, hr, he⟩
        · exact Or.inl hh
        · exact Or.inr ⟨g, by simp [hg], hr, he⟩
      · rcases h2 k hk with hh | ⟨g, hg, hr, he⟩
        · exact Or.inl hh
        · exact Or.inr ⟨g, by simp [hg], hr, he⟩
    · have hd : (f.tag == "-") = false := by simp [beq_eq_false_iff_ne, hdash]
      by_cases htime : f.name = "Time" ∨ f.tag = "time"
      · have hcond : (f.name == "Time" || f.tag == "time") = true := by
          rcases htime with ht | ht <;> simp [ht]
        cases hval : f.val with
        | time n =>
          simp only [toPointFields, hd, hcond, hval, Bool.false_eq_true, if_false,
            if_true] at heq
          obtain ⟨h1, h2⟩ := ih tags fields n tg fl nw heq
          refine ⟨fun k hk => ?_, fun k hk => ?_⟩
          · rcases h1 k hk with hh | ⟨g, hg, hr, he⟩
            · exact Or.inl hh
            · exact Or.inr ⟨g, by simp [hg], hr, he⟩
          · rcases h2 k hk with hh | ⟨g, hg, hr, he⟩
            · exact Or.inl hh
            · exact Or.inr ⟨g, by simp [hg], hr, he⟩
        | int n => simp [toPointFields, hd, hcond, hval] at heq
        | uint n => simp [toPointFields, hd, hcond, hval] at heq
        | float q => simp [toPointFields, hd, hcond, hval] at heq
        | str s => simp [toPointFields, hd, hcond, hval] at heq
      · push_neg at htime
        obtain ⟨hnm, htg⟩ := htime
        have hcond : (f.name == "Time" || f.tag == "time") = false := by
          simp [beq_eq_false_iff_ne, hnm, htg]
        by_cases hsfx : goHasSuffix f.tag ",tag" = true
        · simp only [toPointFields, hd, hcond, hsfx, Bool.false_eq_true, if_false,
            if_true] at heq
          obtain ⟨h1, h2⟩ := ih _ fields now tg fl nw heq
          refine ⟨fun k hk => ?_, fun k hk => ?_⟩
          · rcases h1 k hk with hh | ⟨g, hg, hr, he⟩
            · rcases lookup_insertEntryG_isSome tags _ k _ hh with rfl | hh2
              · exact Or.inr ⟨f, by simp, ⟨hdash, hnm, htg, hsfx⟩, by simp [encName]⟩
              · exact Or.inl hh2
            · exact Or.inr ⟨g, by simp [hg], hr, he⟩
          · rcases h2 k hk with hh | ⟨g, hg, hr, he⟩
            · exact Or.inl hh
            · exact Or.inr ⟨g, by simp [hg], hr, he⟩
        · have hs : goHasSuffix f.tag ",tag" = false := by
            simpa using hsfx
          simp only [toPointFields, hd, hcond, hs, Bool.false_eq_true, if_false] at heq
          obtain ⟨h1, h2⟩ := ih tags _ now tg fl nw heq
          refine ⟨fun k hk => ?_, fun k hk => ?_⟩
          · rcases h1 k hk with hh | ⟨g, hg, hr, he⟩
            · exact Or.inl hh
            · exact Or.inr ⟨g, by simp [hg], hr, he⟩
          · rcases h2 k hk with hh | ⟨g, hg, hr, he⟩
            · rcases lookup_insertEntryG_isSome fields _ k _ hh with rfl | hh2
              · exact Or.inr ⟨f, by simp, ⟨hdash, hnm, htg, hs⟩, by simp [encName]⟩
              · exact Or.inl hh2
            · exact Or.inr ⟨g, by simp [hg], hr, he⟩

/-- Claim C3, counterexample: two fields whose explicit metadata names
collide ("x" as a tag name on one field, "x" as a field name on another)
produce a point in which "x" is simultaneously a tag key and a field key —
the key sets are not disjoint. -/
theorem C3_counterexample :
    ToPoint 0 (.strct ⟨"M", none, [⟨"A", "x,tag", .int 1⟩, ⟨"B", "x", .int 2⟩]⟩)
      = EncRes.point ⟨"m", [("x", "1")], [("x", GoVal.int 2)], 0⟩ ∧
    (List.lookup "x" [("x", "1")]).isSome = true ∧
    (List.lookup "x" [("x", GoVal.int 2)]).isSome = true := by
  exact ⟨rfl, rfl, rfl⟩

/-- Claim C3 (amended): every encoded field is routed to exactly one of the
two maps, and when no tag-routed field shares its resolved name with a
field-routed field, the point's tag keys and field keys are disjoint (the
unconditional disjointness of the claim fails under explicit-metadata
collisions, see the counterexample). -/
theorem C3_tag_field_keys_disjoint (nowNano : Int) (s : GoStruct)
    (h : ∀ f ∈ s.fields, ∀ g ∈ s.fields,
      tagRole f → fieldRole g → encName f ≠ encName g) :
    ∀ p, ToPoint nowNano (.strct s) = .point p →
      ∀ k, (List.lookup k p.tags).isSome = true → List.lookup k p.fields = none := by
  intro p hp k hk
  simp only [ToPoint] at hp
  cases heq : toPointFields s.fields [] [] nowNano with
  | none => rw [heq] at hp; cases hp
  | some t3 =>
    obtain ⟨tg, fl, nw⟩ := t3
    rw [heq] at hp
    have hptags : p.tags = tg := by cases hp; rfl
    have hpflds : p.fields = fl := by cases hp; rfl
    obtain ⟨h1, h2⟩ := toPointFields_key_origin s.fields [] [] nowNano tg fl nw heq
    rw [hptags] at hk
    rw [hpflds]
    rcases h1 k hk with hh | ⟨f, hf, hfr, hfe⟩
    · simp [List.lookup] at hh
    · by_contra hne
      have hsome : (List.lookup k fl).isSome = true := by
        cases hlk : List.lookup k fl with
        | none => exact absurd hlk hne
        | some v => rfl
      rcases h2 k hsome with hh | ⟨g, hg, hgr, hge⟩
      · simp [List.lookup] at hh
      · exact absurd (hfe.trans hge.symm) (h f hf g hg hfr hgr)

/-- Witness for C3. -/
theorem C3_witness :
    (∀ f ∈ [EncField.mk "A" "x,tag" (.int 1), EncField.mk "B" "y" (.int 2)],
      ∀ g ∈ [EncField.mk "A" "x,tag" (.int 1), EncField.mk "B" "y" (.int 2)],
      tagRole f → fieldRole g → encName f ≠ encName g) ∧
    List.lookup "x"
      (Point.fields ⟨"m", [("x", "1")], [("y", GoVal.int 2)], 0⟩) = none :=
  ⟨by decide,
   C3_tag_field_keys_disjoint 0
     ⟨"M", none, [EncField.mk "A" "x,tag" (.int 1), EncField.mk "B" "y" (.int 2)]⟩
     (by decide) ⟨"m", [("x", "1")], [("y", GoVal.int 2)], 0⟩ rfl "x" rfl⟩

theorem firstIdx_some {α : Type} (p : α → Bool) (l : List α) :
    ∀ i, firstIdx p l = some i → ∃ a, l[i]? = some a ∧ p a = true := by
  induction l with
  | nil => intro i h; simp [firstIdx] at h
  | cons x xs ih =>
    intro i h
    by_cases hx : p x = true
    · simp only [firstIdx, hx, if_true, Option.some.injEq] at h
      subst h
      exact ⟨x, by simp, hx⟩
    · simp only [firstIdx, hx, Bool.false_eq_true, if_false, Option.map_eq_some'] at h
      obtain ⟨j, hj, rfl⟩ := h
      obtain ⟨a, ha, hpa⟩ := ih j hj
      exact ⟨a, by simpa using ha, hpa⟩

theorem Res.state_map {α β : Type} (g : α → β) (r : Res α) (b : β)
    (h : (Res.map g r).state = some b) : ∃ a, r.state = some a ∧ b = g a := by
  cases r with
  | ok a => exact ⟨a, rfl, by simpa [Res.map, Res.state] using h.symm⟩
  | err m a => exact ⟨a, rfl, by simpa [Res.map, Res.state] using h.symm⟩
  | panic => simp [Res.map, Res.state] at h
  | nofuel => simp [Res.map, Res.state] at h

theorem Res.fold_state_invariant {α β : Type} (f : α → β → Res α) (P : α → Prop) :
    ∀ (xs : List β) (a : α), P a →
      (∀ a2 b, b ∈ xs → P a2 → ∀ a3, (f a2 b).state = some a3 → P a3) →
      ∀ a4, (Res.fold f a xs).state = some a4 → P a4 := by
  intro xs
  induction xs with
  | nil =>
    intro a hPa _ a4 h
    simp only [Res.fold, Res.state, Option.some.injEq] at h
    exact h ▸ hPa
  | cons b bs ih =>
    intro a hPa hstep a4 h
    simp only [Res.fold] at h
    cases hr : f a b with
    | ok a2 =>
      rw [hr] at h
      exact ih a2 (hstep a b (by simp) hPa a2 (by simp [hr, Res.state]))
        (fun a5 b2 hb2 => hstep a5 b2 (by simp [hb2])) a4 h
    | err e a2 =>
      rw [hr] at h
      simp only [Res.state, Option.some.injEq] at h
      exact h ▸ hstep a b (by simp) hPa a2 (by simp [hr, Res.state])
    | panic => rw [hr] at h; simp [Res.state] at h
    | nofuel => rw [hr] at h; simp [Res.state] at h

theorem structParse_preserves_unmatched (ps : PS) (columns : List String)
    (i : Nat) (f : StructField) (hTag : f.tag = "-")
    (col : String) (v : GoVal)
    (hcond : inColumns col columns = true → snakeToTitle col ≠ f.name ∧ col ≠ "-") :
    ∀ flds, flds[i]? = some f → ∀ flds2,
      (structParse ps columns flds col v).state = some flds2 →
      flds2[i]? = some f := by
  intro flds hi flds2 hst
  by_cases hic : inColumns col columns = true
  · obtain ⟨hname, hdash⟩ := hcond hic
    have hic2 : (!inColumns col columns) = false := by simp [hic]
    simp only [structParse, hic2, Bool.false_eq_true, if_false] at hst
    cases hidx : structFieldIdx flds col with
    | none =>
      simp only [hidx, Res.state, Option.some.injEq] at hst
      exact hst ▸ hi
    | some j =>
      have hji : j ≠ i := by
        intro heq
        subst heq
        unfold structFieldIdx at hidx
        cases hbt : firstIdx
            (fun (g : StructField) => ((goSplitStr ',' g.tag).headD "") == col) flds with
        | some j2 =>
          rw [hbt] at hidx
          have hj2 : j2 = j := by simpa using hidx
          subst hj2
          obtain ⟨a, ha, hpa⟩ := firstIdx_some _ flds j2 hbt
          rw [hi] at ha
          cases ha
          rw [hTag] at hpa
          have hdm : ((goSplitStr ',' "-").headD "") = "-" := rfl
          rw [hdm] at hpa
          have hcd : "-" = col := by simpa using hpa
          exact hdash hcd.symm
        | none =>
          rw [hbt] at hidx
          obtain ⟨a, ha, hpa⟩ := firstIdx_some _ flds j hidx
          rw [hi] at ha
          cases ha
          have hcd : f.name = snakeToTitle col := by simpa using hpa
          exact hname hcd.symm
      simp only [hidx] at hst
      cases hfj : flds[j]? with
      | none => simp [hfj, Res.state] at hst
      | some fj =>
        simp only [hfj] at hst
        obtain ⟨d, _, rfl⟩ := Res.state_map _ _ _ hst
        rw [List.getElem?_set_ne hji]
        exact hi
  · have hic2 : (!inColumns col columns) = true := by simp [hic]
    simp only [structParse, hic2, if_true, Res.state, Option.some.injEq] at hst
    exact hst ▸ hi

/-- Claim C1, counterexample: the decode path never consults the `"-"`
(ignore) marker — a record field tagged `inf:"-"` whose Go name is the
title-case conversion of a source column is found by the `FieldByName`
fallback and written: decoding column `host` into a record whose only field
is `Host` (tagged `"-"`) overwrites that field. -/
theorem C1_counterexample :
    (parseSingle 3 ["host"] [GoVal.str "evil"] []
        (DVal.vstruct [.mk "Host" "-" (.vstr "")]) []).state
      = some (DVal.vstruct [.mk "Host" "-" (.vstr "evil")]) ∧
    dvalFieldAt (DVal.vstruct [.mk "Host" "-" (.vstr "evil")]) 0
      ≠ dvalFieldAt (DVal.vstruct [.mk "Host" "-" (.vstr "")]) 0 := by
  refine ⟨rfl, ?_⟩
  simp [dvalFieldAt, StructField.val]

/-- Claim C1 (amended): an ignore-marked (`inf:"-"`) record field is left
unchanged by a decode — whether the call completes or returns an error —
provided no filter-selected source column or tag is literally named `"-"`
(the tag-metadata scan matches the `"-"` annotation itself) and none has the
field's Go name as its title-case conversion (the `FieldByName` convention
fallback never checks the ignore marker). -/
theorem C1_ignore_field_untouched (fuel : Nat) (cols : List String)
    (vals : List GoVal) (tags : List (String × String)) (columns : List String)
    (flds : List StructField) (i : Nat) (f : StructField)
    (hi : flds[i]? = some f) (hTag : f.tag = "-")
    (hsrc : ∀ c, (c ∈ cols ∨ c ∈ tags.map Prod.fst) → inColumns c columns = true →
      snakeToTitle c ≠ f.name ∧ c ≠ "-") :
    ∀ d, (parseSingle fuel cols vals tags (.vstruct flds) columns).state = some d →
      dvalFieldAt d i = some f.val := by
  intro d hd
  cases fuel with
  | zero => simp [parseSingle, Res.state] at hd
  | succ fuel =>
    by_cases hc : (cols.length == 0) = true
    · simp only [parseSingle, hc, if_true, Res.state, Option.some.injEq] at hd
      simp [← hd, dvalFieldAt, hi]
    · simp only [parseSingle, hc, Bool.false_eq_true, if_false] at hd
      cases vals with
      | nil => simp [Res.state] at hd
      | cons v0 vs =>
        simp only [List.head?] at hd
        cases hvr : resolveVal cols (v0 :: vs) tags columns v0 with
        | none => rw [hvr] at hd; simp [Res.state] at hd
        | some val =>
          rw [hvr] at hd
          rw [alignToStruct] at hd
          by_cases hlen : (cols.length != (v0 :: vs).length) = true
          · rw [if_pos hlen] at hd
            simp only [Res.state, Option.some.injEq] at hd
            simp [← hd, dvalFieldAt, hi]
          · rw [if_neg hlen] at hd
            obtain ⟨fs2, hfs2, rfl⟩ := Res.state_map _ _ _ hd
            have hinv := Res.fold_state_invariant
              (fun fs cv => structParse (parseSingle fuel) columns fs cv.1 cv.2)
              (fun fs => fs[i]? = some f)
              (cols.zip (v0 :: vs) ++ tags.map (fun tv => (tv.1, GoVal.str tv.2)))
              flds hi ?_ fs2 hfs2
            · simp [dvalFieldAt, hinv]
            · intro a2 b hb hP a3 hstate
              have hbsrc : b.1 ∈ cols ∨ b.1 ∈ tags.map Prod.fst := by
                rcases List.mem_append.mp hb with hz | hm
                · exact Or.inl (List.of_mem_zip hz).1
                · right
                  obtain ⟨tv, htv, rfl⟩ := List.mem_map.mp hm
                  exact List.mem_map.mpr ⟨tv, htv, rfl⟩
              exact structParse_preserves_unmatched (parseSingle fuel) columns i f hTag
                b.1 b.2 (hsrc b.1 hbsrc) a2 hP a3 hstate

/-- Witness for C1 (amended). -/
theorem C1_witness :
    ((["host"] : List String)[0]? = some "host") ∧
    dvalFieldAt (DVal.vstruct [.mk "Secret" "-" (.vstr "s")]) 0
      = some (DVal.vstr "s") ∧
    dvalFieldAt (DVal.vstruct [.mk "Secret" "-" (.vstr "s")]) 0
      = some (StructField.mk "Secret" "-" (.vstr "s")).val :=
  ⟨rfl, rfl,
   C1_ignore_field_untouched 3 ["host"] [GoVal.str "x"] [("t", "u")] []
     [.mk "Secret" "-" (.vstr "s")] 0 (.mk "Secret" "-" (.vstr "s")) rfl rfl
     (by
       intro c hc hin
       rcases hc with hc | hc
       · simp only [List.mem_singleton] at hc
         subst hc
         exact ⟨by decide, by decide⟩
       · simp only [List.map, List.mem_singleton] at hc
         subst hc
         exact ⟨by decide, by decide⟩)
     (DVal.vstruct [.mk "Secret" "-" (.vstr "s")]) rfl⟩

theorem firstIdx_beq_none {l : List String} {x : String} (h : x ∉ l) :
    firstIdx (fun c => c == x) l = none := by
  induction l with
  | nil => rfl
  | cons a as ih =>
    have hax : (a == x) = false := by
      simp only [beq_eq_false_iff_ne]
      intro heq
      exact h (heq ▸ List.mem_cons_self a as)
    simp [firstIdx, hax, ih (fun hm => h (List.mem_cons_of_mem a hm))]

theorem columnIndex_notfound {cols : List String} {c : String}
    (hne : cols ≠ []) (h : c ∉ cols) : columnIndex c cols = -1 := by
  have hc0 : (cols.length == 0) = false := by
    cases cols with
    | nil => exact absurd rfl hne
    | cons a as => rfl
  simp [columnIndex, hc0, firstIdx_beq_none h]

theorem resolveVal_tag {cols : List String} {vals : List GoVal}
    {tags : List (String × String)} {c tv : String} {v0 : GoVal}
    (hne : cols ≠ []) (hnc : c ∉ cols) (hlk : List.lookup c tags = some tv) :
    resolveVal cols vals tags [c] v0 = some (GoVal.str tv) := by
  simp [resolveVal, columnIndex_notfound hne hnc, hlk]

theorem parseSingle_single_vstr (fuel : Nat) (col : String) (v : GoVal) (s0 : String) :
    parseSingle (fuel + 1) [col] [v] emptyTags (.vstr s0) []
      = .ok (.vstr (parseString v)) := by
  simp [parseSingle, resolveVal]

theorem inColumns_single_ne {k c : String} (h : k ≠ c) : inColumns k [c] = false := by
  simp [inColumns, h]

theorem Res.fold_append {α β : Type} (f : α → β → Res α) (a : α) (xs ys : List β) :
    Res.fold f a (xs ++ ys) = match Res.fold f a xs with
      | .ok b => Res.fold f b ys
      | .err m b => .err m b
      | .panic => .panic
      | .nofuel => .nofuel := by
  induction xs generalizing a with
  | nil => simp [Res.fold]
  | cons x xs ih =>
    simp only [List.cons_append, Res.fold]
    cases f a x <;> simp [ih]

theorem fold_structParse_skips (ps : PS) (fs : List StructField)
    (srcs : List (String × GoVal))
    (h : ∀ s ∈ srcs, inColumns s.1 ["region"] = false) :
    Res.fold (fun fs2 cv => structParse ps ["region"] fs2 cv.1 cv.2) fs srcs
      = .ok fs := by
  induction srcs generalizing fs with
  | nil => rfl
  | cons s rest ih =>
    have hs : (!inColumns s.1 ["region"]) = true := by simp [h s (by simp)]
    simp only [Res.fold, structParse, hs, if_true]
    exact ih fs (fun s2 hs2 => h s2 (by simp [hs2]))

theorem fold_tags_writes_region (fuel : Nat) (r0 : String) :
    ∀ (tags : List (String × String)) (tv : String),
      (tags.map Prod.fst).Nodup → List.lookup "region" tags = some tv →
      Res.fold (fun fs cv => structParse (parseSingle (fuel + 1)) ["region"] fs cv.1 cv.2)
          [.mk "Region" "" (.vstr r0)]
          (tags.map (fun tv2 => (tv2.1, GoVal.str tv2.2)))
        = .ok [.mk "Region" "" (.vstr tv)] := by
  intro tags
  induction tags with
  | nil => intro tv _ hlk; simp [List.lookup] at hlk
  | cons kv rest ih =>
    intro tv hnd hlk
    obtain ⟨k, v⟩ := kv
    by_cases hk : k = "region"
    · subst hk
      have htv : v = tv := by simpa [List.lookup] using hlk
      subst htv
      have hnotin : "region" ∉ rest.map Prod.fst := by
        simp only [List.map, List.nodup_cons] at hnd
        exact hnd.1
      have hstep : structParse (parseSingle (fuel + 1)) ["region"]
          [.mk "Region" "" (.vstr r0)] "region" (GoVal.str v)
            = .ok [.mk "Region" "" (.vstr v)] := rfl
      simp only [List.map, Res.fold, hstep]
      refine fold_structParse_skips _ _ _ ?_
      intro s hs
      obtain ⟨tv2, htv2, rfl⟩ := List.mem_map.mp hs
      refine inColumns_single_ne ?_
      intro heq
      exact hnotin (heq ▸ List.mem_map.mpr ⟨tv2, htv2, rfl⟩)
    · have hlk2 : List.lookup "region" rest = some tv := by
        have hk2 : ("region" == k) = false := by
          simp only [beq_eq_false_iff_ne]
          exact fun heq => hk heq.symm
        simpa [List.lookup, hk2] using hlk
      have hnd2 : (rest.map Prod.fst).Nodup := by
        simp only [List.map, List.nodup_cons] at hnd
        exact hnd.2
      have hstep : structParse (parseSingle (fuel + 1)) ["region"]
          [.mk "Region" "" (.vstr r0)] k (GoVal.str v)
            = .ok [.mk "Region" "" (.vstr r0)] := by
        have hin : (!inColumns k ["region"]) = true := by
          simp [inColumns_single_ne hk]
        simp [structParse, hin]
      simp only [List.map, Res.fold, hstep]
      exact ih tv hnd2 hlk2

/-- Claim C8, counterexample: with an empty column schema (so "region" is
indeed not among the columns) the decode of a row returns before consulting
the filter, leaving a scalar destination unchanged instead of binding the
"region" tag value. -/
theorem C8_counterexample :
    ParseResult 3 (DVal.vstr "x") ⟨[], [[]], some [("region", "y")]⟩ ["region"]
      = Res.ok (DVal.vstr "x") ∧
    ("region" ∉ ([] : List String)) ∧
    List.lookup "region" [("region", "y")] = some "y" ∧
    ("x" : String) ≠ "y" := by
  exact ⟨rfl, by decide, rfl, by decide⟩

/-- Claim C8 (amended): for a result with at least one column and
well-formed rows (equal column/value counts), a single-name filter
`["region"]` whose name lives only in the tag set resolves through the tag
lookup: a string scalar receives the tag value, an integer scalar its
integer coercion, and a record destination binds its matching field from
the tag value (tag keys assumed distinct, as they are in a Go map). -/
theorem C8_region_tag_resolution (fuel : Nat) (cols : List String)
    (vals : List GoVal) (tags : List (String × String)) (tv s0 r0 : String)
    (n0 : Int)
    (hc : cols ≠ []) (hlen : cols.length = vals.length)
    (hreg : "region" ∉ cols)
    (hnd : (tags.map Prod.fst).Nodup)
    (hlk : List.lookup "region" tags = some tv) :
    parseSingle (fuel + 1) cols vals tags (.vstr s0) ["region"] = .ok (.vstr tv) ∧
    parseSingle (fuel + 1) cols vals tags (.vint n0) ["region"]
      = .ok (.vint (parseInt (.str tv))) ∧
    parseSingle (fuel + 2) cols vals tags (.vstruct [.mk "Region" "" (.vstr r0)])
        ["region"]
      = .ok (.vstruct [.mk "Region" "" (.vstr tv)]) := by
  have hc0 : (cols.length == 0) = false := by
    cases cols with
    | nil => exact absurd rfl hc
    | cons a as => rfl
  cases vals with
  | nil =>
    exfalso
    rw [List.length_nil] at hlen
    exact hc (List.length_eq_zero.mp hlen)
  | cons v0 vs =>
    have hrv : resolveVal cols (v0 :: vs) tags ["region"] v0 = some (GoVal.str tv) :=
      resolveVal_tag hc hreg hlk
    refine ⟨?_, ?_, ?_⟩
    · simp [parseSingle, hc0, hrv, parseString]
    · simp [parseSingle, hc0, hrv]
    · have hne2 : (cols.length != (v0 :: vs).length) = false := by
        simp [hlen]
      have hzip : ∀ s ∈ cols.zip (v0 :: vs), inColumns s.1 ["region"] = false := by
        intro s hs
        refine inColumns_single_ne ?_
        intro heq
        exact hreg (heq ▸ (List.of_mem_zip hs).1)
      have hhead : parseSingle (fuel + 1 + 1) cols (v0 :: vs) tags
          (.vstruct [.mk "Region" "" (.vstr r0)]) ["region"]
          = alignToStruct (parseSingle (fuel + 1)) cols (v0 :: vs) tags
            (.vstruct [.mk "Region" "" (.vstr r0)]) ["region"] := by
        conv_lhs => rw [parseSingle]
        simp only [hc0, Bool.false_eq_true, if_false, List.head?, hrv]
      rw [hhead]
      simp only [alignToStruct, hne2, Bool.false_eq_true, if_false]
      rw [Res.fold_append]
      simp only [fold_structParse_skips _ _ _ hzip]
      rw [fold_tags_writes_region fuel r0 tags tv hnd hlk]
      rfl

/-- Witness for C8. -/
theorem C8_witness :
    (("region" : String) ∉ (["host"] : List String)) ∧
    parseSingle 1 ["host"] [GoVal.int 9] [("region", "west")] (.vstr "x") ["region"]
      = .ok (.vstr "west") ∧
    parseSingle 3 ["host"] [GoVal.int 9] [("region", "west")]
        (.vstruct [.mk "Region" "" (.vstr "")]) ["region"]
      = .ok (.vstruct [.mk "Region" "" (.vstr "west")]) :=
  ⟨by decide,
   (C8_region_tag_resolution 0 ["host"] [GoVal.int 9] [("region", "west")] "west"
     "x" "" 0 (by decide) rfl (by decide) (by decide) rfl).1,
   (C8_region_tag_resolution 1 ["host"] [GoVal.int 9] [("region", "west")] "west"
     "x" "" 0 (by decide) rfl (by decide) (by decide) rfl).2.2⟩

theorem lower_char_facts : ∀ c ∈ asciiLowerChars,
    goIsUpper c = false ∧ goIsSeparator c = false ∧
    goIsUpper (goToUpper c) = true ∧ goToLower (goToUpper c) = c ∧
    goIsSeparator (goToUpper c) = false := by
  decide

theorem goSplit_ne_nil (sep : Char) (l : List Char) : goSplit sep l ≠ [] := by
  cases l with
  | nil => simp [goSplit]
  | cons c cs =>
    by_cases hc : (c == sep) = true
    · simp [goSplit, hc]
    · simp only [goSplit, hc, Bool.false_eq_true, if_false]
      cases goSplit sep cs <;> simp

theorem goJoin_cons_head (sep c : Char) (t : List Char) (ts : List (List Char)) :
    goJoin sep ((c :: t) :: ts) = c :: goJoin sep (t :: ts) := by
  cases ts <;> simp [goJoin]

theorem goJoin_goSplit (sep : Char) (l : List Char) :
    goJoin sep (goSplit sep l) = l := by
  induction l with
  | nil => rfl
  | cons c cs ih =>
    by_cases hc : (c == sep) = true
    · have hceq : c = sep := by simpa using hc
      subst hceq
      simp only [goSplit, beq_self_eq_true, if_true]
      cases hsp : goSplit c cs with
      | nil => exact absurd hsp (goSplit_ne_nil c cs)
      | cons t ts =>
        rw [hsp] at ih
        simp [goJoin, ih]
    · simp only [goSplit, hc, Bool.false_eq_true, if_false]
      cases hsp : goSplit sep cs with
      | nil => exact absurd hsp (goSplit_ne_nil sep cs)
      | cons t ts =>
        rw [hsp] at ih
        rw [goJoin_cons_head, ih]

theorem goTitleAux_false_lower (xs : List Char)
    (h : ∀ c ∈ xs, c ∈ asciiLowerChars) : goTitleAux false xs = xs := by
  induction xs with
  | nil => rfl
  | cons c cs ih =>
    have hc := lower_char_facts c (h c (by simp))
    simp [goTitleAux, hc.2.1, ih (fun x hx => h x (by simp [hx]))]

theorem goTitle_lower_seg (c : Char) (cs : List Char)
    (h : ∀ x ∈ c :: cs, x ∈ asciiLowerChars) :
    goTitle (c :: cs) = goToUpper c :: cs := by
  have hc := lower_char_facts c (h c (by simp))
  simp [goTitle, goTitleAux, hc.2.1,
    goTitleAux_false_lower cs (fun x hx => h x (by simp [hx]))]

theorem titleToSnakeAux_lower_append (xs : List Char)
    (h : ∀ c ∈ xs, c ∈ asciiLowerChars) (rest : List Char) :
    titleToSnakeAux false (xs ++ rest) = xs ++ titleToSnakeAux false rest := by
  induction xs with
  | nil => rfl
  | cons c cs ih =>
    have hc := lower_char_facts c (h c (by simp))
    simp [titleToSnakeAux, hc.1, ih (fun x hx => h x (by simp [hx]))]

theorem titleToSnakeAux_true_lower (xs : List Char)
    (h : ∀ c ∈ xs, c ∈ asciiLowerChars) : titleToSnakeAux true xs = xs := by
  cases xs with
  | nil => rfl
  | cons c cs =>
    have hc := lower_char_facts c (h c (by simp))
    have := titleToSnakeAux_lower_append cs (fun x hx => h x (by simp [hx])) []
    simp only [List.append_nil] at this
    simp [titleToSnakeAux, hc.1, this]

theorem titleToSnakeAux_upper_entry (b : Bool) (c : Char) (hc : c ∈ asciiLowerChars)
    (rest : List Char) :
    titleToSnakeAux b (goToUpper c :: rest)
      = (if b then [] else ['_']) ++ c :: titleToSnakeAux true rest := by
  have hf := lower_char_facts c hc
  cases b <;> simp [titleToSnakeAux, hf.2.2.1, hf.2.2.2.1]

theorem snake_segments_aux (segs : List (List Char)) :
    segs ≠ [] →
    (∀ seg ∈ segs, seg ≠ [] ∧ ∀ c ∈ seg, c ∈ asciiLowerChars) →
    (∀ seg ∈ segs.dropLast, 2 ≤ seg.length) →
    titleToSnakeAux false ((segs.map goTitle).flatten) = '_' :: goJoin '_' segs := by
  induction segs with
  | nil => intro h; exact absurd rfl h
  | cons seg rest ih =>
    intro _ hsegs hlen
    obtain ⟨hne, hlow⟩ := hsegs seg (by simp)
    obtain ⟨c, cs, rfl⟩ := List.exists_cons_of_ne_nil hne
    have hcl : c ∈ asciiLowerChars := hlow c (by simp)
    have hcsl : ∀ x ∈ cs, x ∈ asciiLowerChars := fun x hx => hlow x (by simp [hx])
    cases rest with
    | nil =>
      simp only [List.map, List.flatten, goTitle_lower_seg c cs hlow, List.append_nil]
      rw [titleToSnakeAux_upper_entry false c hcl cs,
        titleToSnakeAux_true_lower cs hcsl]
      simp [goJoin]
    | cons seg2 rest2 =>
      have h2 : 2 ≤ (c :: cs).length := hlen (c :: cs) (by simp)
      obtain ⟨d, ds, rfl⟩ : ∃ d ds, cs = d :: ds := by
        cases cs with
        | nil => simp at h2
        | cons d ds => exact ⟨d, ds, rfl⟩
      have hdl : d ∈ asciiLowerChars := hcsl d (by simp)
      have hdsl : ∀ x ∈ ds, x ∈ asciiLowerChars := fun x hx => hcsl x (by simp [hx])
      have hdf := lower_char_facts d hdl
      have ihr := ih (by simp)
        (fun s hs => hsegs s (by simp [hs]))
        (fun s hs => hlen s (by
          rcases rest2 with _ | ⟨r1, rrest⟩
          · simp at hs
          · simpa using Or.inr hs))
      simp only [List.map, List.flatten, goTitle_lower_seg c (d :: ds) hlow,
        List.cons_append]
      rw [titleToSnakeAux_upper_entry false c hcl]
      simp only [titleToSnakeAux, hdf.1, Bool.false_eq_true, if_false]
      simp only [List.map, List.flatten] at ihr
      rw [titleToSnakeAux_lower_append ds hdsl, ihr]
      simp [goJoin]

theorem snake_segments_main (segs : List (List Char)) :
    segs ≠ [] →
    (∀ seg ∈ segs, seg ≠ [] ∧ ∀ c ∈ seg, c ∈ asciiLowerChars) →
    (∀ seg ∈ segs.dropLast, 2 ≤ seg.length) →
    titleToSnakeAux true ((segs.map goTitle).flatten) = goJoin '_' segs := by
  intro hne0 hsegs hlen
  cases segs with
  | nil => exact absurd rfl hne0
  | cons seg rest =>
    obtain ⟨hne, hlow⟩ := hsegs seg (by simp)
    obtain ⟨c, cs, rfl⟩ := List.exists_cons_of_ne_nil hne
    have hcl : c ∈ asciiLowerChars := hlow c (by simp)
    have hcsl : ∀ x ∈ cs, x ∈ asciiLowerChars := fun x hx => hlow x (by simp [hx])
    cases rest with
    | nil =>
      simp only [List.map, List.flatten, goTitle_lower_seg c cs hlow, List.append_nil]
      rw [titleToSnakeAux_upper_entry true c hcl cs,
        titleToSnakeAux_true_lower cs hcsl]
      simp [goJoin]
    | cons seg2 rest2 =>
      have h2 : 2 ≤ (c :: cs).length := hlen (c :: cs) (by simp)
      obtain ⟨d, ds, rfl⟩ : ∃ d ds, cs = d :: ds := by
        cases cs with
        | nil => simp at h2
        | cons d ds => exact ⟨d, ds, rfl⟩
      have hdl : d ∈ asciiLowerChars := hcsl d (by simp)
      have hdsl : ∀ x ∈ ds, x ∈ asciiLowerChars := fun x hx => hcsl x (by simp [hx])
      have hdf := lower_char_facts d hdl
      have haux := snake_segments_aux (seg2 :: rest2) (by simp)
        (fun s hs => hsegs s (by simp [hs]))
        (fun s hs => hlen s (by
          rcases rest2 with _ | ⟨r1, rrest⟩
          · simp at hs
          · simpa using Or.inr hs))
      simp only [List.map, List.flatten, goTitle_lower_seg c (d :: ds) hlow,
        List.cons_append]
      rw [titleToSnakeAux_upper_entry true c hcl]
      simp only [titleToSnakeAux, hdf.1, Bool.false_eq_true, if_false]
      simp only [List.map, List.flatten] at haux
      rw [titleToSnakeAux_lower_append ds hdsl, haux]
      simp [goJoin]

/-- Claim C2, counterexample: `"a_b"` is already snake case in the claim's
sense, yet the round trip gives `toSnake(toTitle("a_b")) =
toSnake("AB") = "ab"` — the underscore between two single-letter segments is
lost, because `titleToSnake` never separates a continuous upper-case run. -/
theorem C2_counterexample :
    specSnake "a_b" = true ∧ titleToSnake (snakeToTitle "a_b") ≠ "a_b" := by
  exact ⟨rfl, by decide⟩

/-- Claim C2 (amended): the round trip `toSnake(toTitle(s)) = s` holds for
an already-snake `s` (non-empty lower-case-letter segments, no leading or
trailing underscore) provided additionally that every segment except the
last has at least two letters (a single-letter segment capitalizes into an
upper-case run whose inner boundary the snake conversion cannot see — the
counterexample). -/
theorem C2_snake_title_roundtrip (s : String)
    (hseg : ∀ seg ∈ goSplit '_' s.data,
      seg ≠ [] ∧ ∀ c ∈ seg, c ∈ asciiLowerChars)
    (hlen : ∀ seg ∈ (goSplit '_' s.data).dropLast, 2 ≤ seg.length) :
    titleToSnake (snakeToTitle s) = s := by
  obtain ⟨L⟩ := s
  have hsm := snake_segments_main (goSplit '_' L) (goSplit_ne_nil '_' L) hseg hlen
  show String.mk (titleToSnakeAux true
    ((((goSplit '_' L).map goTitle).flatten))) = String.mk L
  rw [hsm, goJoin_goSplit]

/-- Witness for C2 (amended). -/
theorem C2_witness :
    (∀ seg ∈ goSplit '_' ("ab_c" : String).data,
      seg ≠ [] ∧ ∀ c ∈ seg, c ∈ asciiLowerChars) ∧
    titleToSnake (snakeToTitle "ab_c") = "ab_c" :=
  ⟨by decide, C2_snake_title_roundtrip "ab_c" (by decide) (by decide)⟩

end Influx
